import Mathlib

/-!
Verification of `utils/markdown2man.py`, a markdown → man-page converter.

Strings are modelled as `List Char`; each Python function is translated to a
computable Lean function of the same name.  Python regular expressions are
hand-specialised to the concrete patterns appearing in the source, following
the CPython backtracking semantics (greedy/lazy, leftmost match, replacement
text never rescanned).  Scanning loops use an explicit fuel argument set to
`length + 1`; every step consumes at least one input character, so this fuel
is never exhausted.  Character classes follow the ASCII fragment of Python's
semantics (all inputs considered here are ASCII).
-/

set_option autoImplicit false

namespace Md2Man

/-- Python whitespace characters (`str.strip`, regex `\s`): the ASCII range
plus U+001C–U+001F and U+0085 (the remaining Unicode spaces do not occur in
the inputs considered here). -/
def pyWs (c : Char) : Bool :=
  c = ' ' || c = '\t' || c = '\n' || c = '\r' || c = Char.ofNat 11 ||
  c = Char.ofNat 12 || c = Char.ofNat 28 || c = Char.ofNat 29 ||
  c = Char.ofNat 30 || c = Char.ofNat 31 || c = Char.ofNat 133

/-- `startsWithL p l` : `p` is a prefix of `l`. -/
def startsWithL : List Char → List Char → Bool
  | [], _ => true
  | _ :: _, [] => false
  | p :: ps, c :: cs => p = c && startsWithL ps cs

/-- Python `str.strip()` (whitespace from both ends). -/
def pyStrip (l : List Char) : List Char :=
  ((l.dropWhile pyWs).reverse.dropWhile pyWs).reverse

/-- Python `str.lstrip()`. -/
def pyLStrip (l : List Char) : List Char :=
  l.dropWhile pyWs

/-- Python `str.endswith("  ")`. -/
def endsTwoSp (l : List Char) : Bool :=
  match l.reverse with
  | ' ' :: ' ' :: _ => true
  | _ => false

/-- Python `str.split(c)` : split on every occurrence of `c`; never returns `[]`. -/
def splitCh (c : Char) : List Char → List (List Char)
  | [] => [[]]
  | d :: rest =>
    if d = c then [] :: splitCh c rest
    else
      match splitCh c rest with
      | p :: ps => (d :: p) :: ps
      | [] => [[d]]

/-- Join with a separator character (Python `sep.join`). -/
def joinCh (c : Char) : List (List Char) → List Char
  | [] => []
  | [l] => l
  | l :: ls => l ++ c :: joinCh c ls

/-- `"\n".join`. -/
def joinNL (ls : List (List Char)) : List Char := joinCh '\n' ls

/-- Python line-break characters recognised by `str.splitlines` (ASCII fragment
plus U+0085/U+2028/U+2029). -/
def pyLineBreak (c : Char) : Bool :=
  c = '\n' || c = '\r' || c = Char.ofNat 11 || c = Char.ofNat 12 ||
  c = Char.ofNat 28 || c = Char.ofNat 29 || c = Char.ofNat 30 ||
  c = Char.ofNat 133 || c = Char.ofNat 8232 || c = Char.ofNat 8233

/-- Auxiliary scanner for `pySplitlines`; `acc` holds the current chunk reversed. -/
def pySplitlinesAux (acc : List Char) : List Char → List (List Char)
  | [] => if acc.isEmpty then [] else [acc.reverse]
  | '\r' :: '\n' :: rest => acc.reverse :: pySplitlinesAux [] rest
  | c :: rest =>
    if pyLineBreak c then acc.reverse :: pySplitlinesAux [] rest
    else pySplitlinesAux (c :: acc) rest

/-- Python `str.splitlines()`: no trailing empty chunk for a final newline. -/
def pySplitlines (l : List Char) : List (List Char) :=
  pySplitlinesAux [] l

/-- Index of the first occurrence of `pat` in `l` (Python lazy `.*?pat` search). -/
def findOcc (pat : List Char) : List Char → Option Nat
  | [] => if startsWithL pat [] then some 0 else none
  | c :: rest =>
    if startsWithL pat (c :: rest) then some 0
    else (findOcc pat rest).map (fun n => n + 1)

/-- Number of occurrences of `pat` in `l` (scanning every start position). -/
def countOcc (pat : List Char) : List Char → Nat
  | [] => 0
  | c :: rest =>
    (if startsWithL pat (c :: rest) then 1 else 0) + countOcc pat rest

/-- Fuel-driven literal replacement, Python `str.replace(pat, rep)` /
`re.sub` with a literal pattern: leftmost, non-overlapping, replacement not
rescanned. -/
def replaceSubF (pat rep : List Char) : Nat → List Char → List Char
  | 0, l => l
  | _ + 1, [] => []
  | fuel + 1, c :: rest =>
    if startsWithL pat (c :: rest) && !pat.isEmpty then
      rep ++ replaceSubF pat rep fuel ((c :: rest).drop pat.length)
    else
      c :: replaceSubF pat rep fuel rest

/-- Python `str.replace(pat, rep)` for a non-empty `pat`. -/
def replaceSub (pat rep l : List Char) : List Char :=
  replaceSubF pat rep (l.length + 1) l

/-- Decimal digits of a natural number (Python `str(n)` / f-string `{n}`). -/
def natCharsAux : Nat → Nat → List Char
  | 0, _ => []
  | _ + 1, 0 => []
  | fuel + 1, n + 1 =>
    natCharsAux fuel ((n + 1) / 10) ++ [Char.ofNat (48 + (n + 1) % 10)]

/-- Decimal representation of a natural number. -/
def natChars (n : Nat) : List Char :=
  if n = 0 then ['0'] else natCharsAux (n + 1) n

/-- Python `str.upper()` (ASCII). -/
def upperStr (l : List Char) : List Char :=
  l.map Char.toUpper

/-!  ### `strip_yaml_from_markdown`

Python source:
`return re.sub(r"^---\n.*?\n---\n", "", content, flags=re.DOTALL)`.
Without `re.MULTILINE` the `^` anchors only at the start of the string, so at
most one replacement happens; the lazy `.*?` makes the closing delimiter the
first occurrence of `"\n---\n"` at or after index 4. -/

/-- Opening front-matter delimiter recognised by the regex. -/
def fmOpen : List Char := "---\n".toList

/-- Closing front-matter delimiter recognised by the regex. -/
def fmClose : List Char := "\n---\n".toList

/-- Translation of `strip_yaml_from_markdown`. -/
def strip_yaml_from_markdown (s : List Char) : List Char :=
  if startsWithL fmOpen s then
    match findOcc fmClose (s.drop 4) with
    | some j => s.drop (j + 9)
    | none => s
  else s

/-!  ### `parse_markdown`

The block classifier: a single forward pass over `content.splitlines()`,
keeping a current block (`processing_block`), soft-wrap buffer, state string
and `in_table` flag, followed by a merge of adjacent same-type non-empty
blocks.  Translated statement by statement from the Python loop. -/

/-- The classifier's `state` strings (`"default"`, `"code"`, `"list"`, `"table"`). -/
inductive PState where
  | default
  | code
  | list
  | table
  deriving DecidableEq, Repr

/-- One entry of `processed_content`: `{"markdown": ..., "type": ...}`. -/
structure Block where
  markdown : List Char
  type : PState
  deriving DecidableEq, Repr

/-- Regex `^\|.+\|$` applied to the stripped line: first and last characters
are `|` with at least one character in between. -/
def tableLine (l : List Char) : Bool :=
  match l with
  | '|' :: rest =>
    match rest.reverse with
    | '|' :: _ :: _ => true
    | _ => false
  | _ => false

/-- Regex `^\|-+` applied to the stripped line. -/
def tableSepLine (l : List Char) : Bool :=
  match l with
  | '|' :: '-' :: _ => true
  | _ => false

/-- Second half of the list-item regex: `\s+(.*)` after the bullet; returns
the groups `(indent, bullet, content)`. -/
def afterBullet (ws bullet rest : List Char) :
    Option (List Char × List Char × List Char) :=
  let sp := rest.takeWhile pyWs
  if sp.isEmpty then none else some (ws, bullet, rest.drop sp.length)

/-- Regex `^(\s*)([-*]|\d+\.)\s+(.*)` (`re.match`), returning the three groups. -/
def listMatch (l : List Char) : Option (List Char × List Char × List Char) :=
  let ws := l.takeWhile pyWs
  match l.drop ws.length with
  | [] => none
  | c :: rest =>
    if c = '-' || c = '*' then afterBullet ws [c] rest
    else
      let ds := (c :: rest).takeWhile Char.isDigit
      if ds.isEmpty then none
      else
        match (c :: rest).drop ds.length with
        | '.' :: rest2 => afterBullet ws (ds ++ ['.']) rest2
        | _ => none

/-- Mutable state of the `parse_markdown` loop. -/
structure ParseSt where
  pblock : List (List Char)
  out : List Block
  buffer : List Char
  state : PState
  in_table : Bool
  deriving Repr

/-- `processed_content.append({"markdown": "\n".join(processing_block), "type": state})`
followed by `processing_block = []`. -/
def flushBlock (st : ParseSt) : ParseSt :=
  { st with out := st.out ++ [⟨joinNL st.pblock, st.state⟩], pblock := [] }

/-- One iteration of the `for line in lines` loop of `parse_markdown`. -/
def parseStep (st : ParseSt) (line : List Char) : ParseSt :=
  let stripped := pyStrip line
  if tableLine stripped && !st.in_table then
    let st := if !st.pblock.isEmpty then flushBlock st else st
    { st with state := .table, in_table := true, pblock := st.pblock ++ [line] }
  else if st.in_table then
    if tableLine stripped || tableSepLine stripped then
      { st with pblock := st.pblock ++ [line] }
    else
      { flushBlock st with state := .default, in_table := false, buffer := line }
  else if startsWithL "```".toList stripped then
    if st.state = .code then
      { flushBlock { st with pblock := st.pblock ++ [line] } with state := .default }
    else
      { flushBlock st with pblock := [line], state := .code }
  else
    let st :=
      if (listMatch stripped).isSome then
        let st :=
          if !st.buffer.isEmpty then
            { st with pblock := st.pblock ++ [st.buffer], buffer := [] }
          else st
        if st.state ≠ .list then { flushBlock st with state := .list } else st
      else st
    if line.isEmpty then
      let st :=
        if !st.buffer.isEmpty then
          { st with pblock := st.pblock ++ [st.buffer], buffer := [] }
        else st
      let st :=
        if st.state ≠ .default then { flushBlock st with state := .default } else st
      { st with pblock := st.pblock ++ [[]] }
    else
      let st :=
        { st with buffer := if st.buffer.isEmpty then line else st.buffer ++ ' ' :: line }
      if endsTwoSp line then
        { st with pblock := st.pblock ++ [st.buffer], buffer := [] }
      else st

/-- Merge step: skip empty markdown, concatenate onto a preceding block of the
same type (accumulator kept reversed). -/
def mergeStep (acc : List Block) (it : Block) : List Block :=
  if it.markdown.isEmpty then acc
  else
    match acc with
    | b :: rest =>
      if b.type = it.type then ⟨b.markdown ++ '\n' :: it.markdown, b.type⟩ :: rest
      else it :: b :: rest
    | [] => [it]

/-- The adjacent-same-type merge pass at the end of `parse_markdown`. -/
def mergeBlocks (l : List Block) : List Block :=
  (l.foldl mergeStep []).reverse

/-- Translation of `parse_markdown`. -/
def parse_markdown (content : List Char) : List Block :=
  let lines := pySplitlines content
  let st : ParseSt := ⟨[], [], [], .default, false⟩
  let st := lines.foldl parseStep st
  let st :=
    if !st.buffer.isEmpty then
      { st with pblock := st.pblock ++ [st.buffer], buffer := [] }
    else st
  let out :=
    if !st.pblock.isEmpty then st.out ++ [⟨joinNL st.pblock, st.state⟩]
    else st.out
  mergeBlocks out

/-!  ### `process_special_characters`

Python: three literal `str.replace` calls (`\[`→`[`, `\]`→`]`, `\#`→`#`),
then `re.sub(r"(?<=\S) {2,}(?=\S)", " ", ...)`, then
`re.sub(r"\\", r"\(rs", ...)` (every backslash becomes `\(rs`). -/

/-- Collapse runs of two or more spaces between two non-whitespace characters
into a single space (`(?<=\S) {2,}(?=\S)`). -/
def collapseSpF : Nat → List Char → List Char
  | 0, l => l
  | _ + 1, [] => []
  | fuel + 1, c :: rest =>
    if !(pyWs c) then
      let run := rest.takeWhile (fun d => d = ' ')
      let after := rest.drop run.length
      let ok := match after with | a :: _ => !(pyWs a) | [] => false
      if decide (2 ≤ run.length) && ok then
        c :: ' ' :: collapseSpF fuel after
      else c :: collapseSpF fuel rest
    else c :: collapseSpF fuel rest

/-- Replace every backslash with `\(rs` (replacement text not rescanned). -/
def escBackslash : List Char → List Char
  | [] => []
  | c :: rest => (if c = '\\' then "\\(rs".toList else [c]) ++ escBackslash rest

/-- Translation of `process_special_characters`. -/
def process_special_characters (m : List Char) : List Char :=
  let m := replaceSub "\\[".toList "[".toList m
  let m := replaceSub "\\]".toList "]".toList m
  let m := replaceSub "\\#".toList "#".toList m
  escBackslash (collapseSpF (m.length + 1) m)

/-!  ### `process_formatting`

Python (`re.DOTALL`, applied in this order):
* `\*\*\s*(\S(.*?\S)?)\s*\*\*` → `\fB \1 \fR`
* `\*\s*(\S(.*?\S)?)\s*\*`     → `\fI \1 \fR`
* `\*\*\*\s*(\S(.*?\S)?)\s*\*\*\*` → `\fB\fI \1 \fR\fR`

Backtracking notes: both `\s*` sub-patterns are forced to their maximal runs
(shorter choices leave a whitespace character where `\S` or `*` is required),
the optional group is tried before its omission, and the inner `.*?` is lazy
(shortest first).  `matchEmphCore` realises exactly this search order. -/

/-- After the group: `\s*` (maximal) then the closing delimiter. -/
def closeAt (close rest : List Char) : Option (List Char) :=
  let r := rest.dropWhile pyWs
  if startsWithL close r then some (r.drop close.length) else none

/-- Lazy search for the optional inner part `(.*?\S)`: `acc` holds the
characters matched by `.*?` so far (reversed); tries the shortest extension
first, exactly like the backtracking engine. -/
def emphLazy (close : List Char) (c1 : Char) (acc : List Char) :
    List Char → Option (List Char × List Char)
  | [] => none
  | c2 :: after =>
    (if !(pyWs c2) then
       (closeAt close after).map (fun tail => (c1 :: (acc.reverse ++ [c2]), tail))
     else none) <|>
    emphLazy close c1 (c2 :: acc) after

/-- `\s*(\S(.*?\S)?)\s*close` after the opening delimiter: returns the group
and the remainder after the match. -/
def matchEmphCore (close rest : List Char) : Option (List Char × List Char) :=
  match rest.dropWhile pyWs with
  | [] => none
  | c1 :: rest2 =>
    emphLazy close c1 [] rest2 <|>
    (closeAt close rest2).map (fun tail => ([c1], tail))

/-- Match of the bold pattern at the current position. -/
def matchBold (l : List Char) : Option (List Char × List Char) :=
  match l with
  | '*' :: '*' :: rest => matchEmphCore "**".toList rest
  | _ => none

/-- Match of the italic pattern at the current position. -/
def matchItal (l : List Char) : Option (List Char × List Char) :=
  match l with
  | '*' :: rest => matchEmphCore "*".toList rest
  | _ => none

/-- Match of the triple-emphasis pattern at the current position. -/
def matchTriple (l : List Char) : Option (List Char × List Char) :=
  match l with
  | '*' :: '*' :: '*' :: rest => matchEmphCore "***".toList rest
  | _ => none

/-- `re.sub` scan for one emphasis pattern: leftmost match, replacement
`pre ++ group ++ post`, continue after the match. -/
def subScanF (m : List Char → Option (List Char × List Char))
    (pre post : List Char) : Nat → List Char → List Char
  | 0, l => l
  | _ + 1, [] => []
  | fuel + 1, c :: rest =>
    match m (c :: rest) with
    | some (g, tail) => pre ++ g ++ post ++ subScanF m pre post fuel tail
    | none => c :: subScanF m pre post fuel rest

/-- Translation of `process_formatting`. -/
def process_formatting (m : List Char) : List Char :=
  let m := subScanF matchBold "\\fB ".toList " \\fR".toList (m.length + 1) m
  let m := subScanF matchItal "\\fI ".toList " \\fR".toList (m.length + 1) m
  subScanF matchTriple "\\fB\\fI ".toList " \\fR\\fR".toList (m.length + 1) m

/-!  ### `process_links`

Python: `re.sub(r"!\[.*?\]\(.*?\)", "", ...)` then
`re.sub(r"\[(.*?)\]\((.*?)\)", r"\1", ...)` (no DOTALL: `.` excludes `\n`). -/

/-- Lazy `(.*?)\)`: skip to the first `)` with no newline before it. -/
def scanParen : List Char → Option (List Char)
  | [] => none
  | c :: rest =>
    if c = ')' then some rest
    else if c = '\n' then none
    else scanParen rest

/-- Lazy `(.*?)\]\((.*?)\)` after the opening bracket: returns the text group
and the remainder; a `]` not followed by `(`, or one whose `(...)` never
closes, is swallowed by the lazy `.*?` and scanning continues. -/
def linkAux (acc : List Char) : List Char → Option (List Char × List Char)
  | [] => none
  | c :: rest =>
    (if c = ']' then
       match rest with
       | '(' :: r2 => (scanParen r2).map (fun tail => (acc.reverse, tail))
       | _ => none
     else none) <|>
    (if c = '\n' then none else linkAux (c :: acc) rest)

/-- Match of `\[(.*?)\]\((.*?)\)` at the current position. -/
def matchLink (l : List Char) : Option (List Char × List Char) :=
  match l with
  | '[' :: rest => linkAux [] rest
  | _ => none

/-- Match of `!\[.*?\]\(.*?\)` at the current position. -/
def matchImage (l : List Char) : Option (List Char) :=
  match l with
  | '!' :: rest => (matchLink rest).map (fun p => p.2)
  | _ => none

/-- `re.sub` scan deleting image references. -/
def subImagesF : Nat → List Char → List Char
  | 0, l => l
  | _ + 1, [] => []
  | fuel + 1, c :: rest =>
    match matchImage (c :: rest) with
    | some tail => subImagesF fuel tail
    | none => c :: subImagesF fuel rest

/-- `re.sub` scan collapsing links to their display text. -/
def subLinksF : Nat → List Char → List Char
  | 0, l => l
  | _ + 1, [] => []
  | fuel + 1, c :: rest =>
    match matchLink (c :: rest) with
    | some (g, tail) => g ++ subLinksF fuel tail
    | none => c :: subLinksF fuel rest

/-- Translation of `process_links`. -/
def process_links (m : List Char) : List Char :=
  let m := subImagesF (m.length + 1) m
  subLinksF (m.length + 1) m

/-!  ### `process_parameters` and `process_flags` (MULTILINE prefix rewrites) -/

/-- Character class `[a-z0-9_]`. -/
def isParamChar (c : Char) : Bool := c.isLower || c.isDigit || c = '_'

/-- Per-line action of
`re.sub(r"^\*\*([a-z0-9_]*)\*\*=\*([a-z]*)\*( \*\*\[required\]\*\*)?", r'.IP "\\fB\1\\fR=*\2*\3" 4m', ..., re.MULTILINE)`. -/
def paramLine (l : List Char) : List Char :=
  match l with
  | '*' :: '*' :: rest =>
    let g1 := rest.takeWhile isParamChar
    let r1 := rest.drop g1.length
    if startsWithL "**=*".toList r1 then
      let r2 := r1.drop 4
      let g2 := r2.takeWhile Char.isLower
      match r2.drop g2.length with
      | '*' :: r4 =>
        let gr :=
          if startsWithL " **[required]**".toList r4 then
            (" **[required]**".toList, r4.drop 15)
          else (([] : List Char), r4)
        ".IP \"\\fB".toList ++ g1 ++ "\\fR=*".toList ++ g2 ++ ['*'] ++ gr.1 ++
          "\" 4m".toList ++ gr.2
      | _ => l
    else l
  | _ => l

/-- Translation of `process_parameters`. -/
def process_parameters (m : List Char) : List Char :=
  joinNL ((splitCh '\n' m).map paramLine)

/-- Per-line action of
`re.sub(r"^\*\*-(.*?)\*\*", r'.IP "\\fB-\1\\fR" 4m', ..., re.MULTILINE)`. -/
def flagLine (l : List Char) : List Char :=
  match l with
  | '*' :: '*' :: '-' :: rest =>
    match findOcc "**".toList rest with
    | some k =>
      ".IP \"\\fB-".toList ++ rest.take k ++ "\\fR\" 4m".toList ++ rest.drop (k + 2)
    | none => l
  | _ => l

/-- Translation of `process_flags`. -/
def process_flags (m : List Char) : List Char :=
  joinNL ((splitCh '\n' m).map flagLine)

/-!  ### `process_headings`

Python performs `re.sub(r"^## (.*)", convert_main_section, ..., re.MULTILINE)`
in full, then `re.sub(r"^### (.*)", convert_subsection, ...)` over the result.
The second `re.sub` has NO `re.MULTILINE`, so its `^` anchors only at the
start of the whole block string: at most one `###` substitution happens, and
only when the block string begins with `### ` (a `###` heading elsewhere in
the block is left untouched).  The closures share mutable counters: the
single `.SS` sees the final `##` count, and the subsection counter is `0`
entering the second pass (it starts at `0` and every `##` match resets it),
so the one substitution numbers itself `secN.1`. -/

/-- Replacement for one `^## (.*)` line, threading the section counter. -/
def shLine (n : Nat) (l : List Char) : Nat × List Char :=
  if startsWithL "## ".toList l then
    (n + 1,
     "\n.SH ".toList ++ natChars (n + 1) ++ ". ".toList ++
       upperStr (l.drop 3) ++ " (Main Section)\n".toList)
  else (n, l)

/-- First pass over the lines, counting `##` sections. -/
def headingsPass1 : Nat → List (List Char) → Nat × List (List Char)
  | n, [] => (n, [])
  | n, l :: ls =>
    let p := shLine n l
    let q := headingsPass1 p.1 ls
    (q.1, p.2 :: q.2)

/-- The `^### (.*)` substitution without `re.MULTILINE`: it fires at most
once, at the very start of the block string; `(.*)` stops at the first
newline, and the remainder of the string is kept. -/
def headingsPass2 (secN : Nat) (s : List Char) : List Char :=
  if startsWithL "### ".toList s then
    let grp := (s.drop 4).takeWhile (fun c => c != '\n')
    "\n.SS ".toList ++ natChars secN ++ ['.'] ++ natChars 1 ++ [' '] ++
      upperStr grp ++ " (Subsection)\n".toList ++ (s.drop 4).drop grp.length
  else s

/-- Translation of `process_headings`. -/
def process_headings (m : List Char) : List Char :=
  let p := headingsPass1 0 (splitCh '\n' m)
  headingsPass2 p.1 (joinNL p.2)

/-!  ### `process_default` -/

/-- The literal `&nbsp;&nbsp;&nbsp;&nbsp;` removed by `process_default`. -/
def nbspQuad : List Char := "&nbsp;&nbsp;&nbsp;&nbsp;".toList

/-- The `transformations` list of `process_default`, in source order. -/
def transformations : List (List Char → List Char) :=
  [process_parameters, process_flags, fun x => replaceSub nbspQuad [] x,
   process_special_characters, process_formatting, process_links,
   process_headings]

/-- Translation of `process_default`. -/
def process_default (m : List Char) : List Char :=
  transformations.foldl (fun acc f => f acc) m

/-!  ### `process_lists`

Python first runs the three inline transforms over the whole block, then
loops over its lines.  The down-transition loop
`while current_level > new_level: if list_stack: ...` never terminates when
the stack empties while `current_level > new_level` still holds, so the
translation returns `Option` (`none` = the Python loop diverges).  The final
`while current_level > 0 and list_stack` unwind is total. -/

/-- One `list_stack` entry (`{'type': ..., 'counter': ...}`). -/
structure LEnt where
  ordered : Bool
  counter : Nat
  deriving DecidableEq, Repr

/-- `\fBStart of Nested List (Level n) [TYPE]\fR\n.RS kn`. -/
def startMarker (lvl : Nat) (ordered : Bool) : List Char :=
  "\\fBStart of Nested List (Level ".toList ++ natChars lvl ++ ") [".toList ++
    (if ordered then "ORDERED".toList else "UNORDERED".toList) ++
    "]\\fR\n.RS ".toList ++ natChars (4 * (lvl + 1)) ++ ['n']

/-- `.RE\n\fBEnd of Nested List (Level n)\fR\n`. -/
def endMarker (lvl : Nat) : List Char :=
  ".RE\n\\fBEnd of Nested List (Level ".toList ++ natChars lvl ++ ")\\fR\n".toList

/-- `bullet_styles[lvl % 3]`; the Python literals are raw strings with two
backslashes each. -/
def bulletStyle (lvl : Nat) : List Char :=
  match lvl % 3 with
  | 0 => "\\\\(bu".toList
  | 1 => "\\\\(sq".toList
  | _ => "\\\\(ci".toList

/-- `.IP "{counter}." {4*(cur+1)}n`. -/
def ipOrdered (counter cur : Nat) : List Char :=
  ".IP \"".toList ++ natChars counter ++ ".\" ".toList ++
    natChars (4 * (cur + 1)) ++ ['n']

/-- `.IP "{bullet}" {4*(cur+1)}n`. -/
def ipBullet (cur : Nat) : List Char :=
  ".IP \"".toList ++ bulletStyle cur ++ "\" ".toList ++
    natChars (4 * (cur + 1)) ++ ['n']

/-- State of the `process_lists` line loop; the stack's head is its top. -/
structure LSt where
  out : List Char
  cur : Nat
  stack : List LEnt
  deriving Repr

/-- The `while current_level > new_level` down-transition loop; `none` when
the Python loop would spin forever on an empty stack. -/
def unwindTo (newLevel : Nat) : Nat → List LEnt → List Char →
    Option (Nat × List LEnt × List Char)
  | 0, stack, out => some (0, stack, out)
  | cur + 1, stack, out =>
    if cur + 1 ≤ newLevel then some (cur + 1, stack, out)
    else
      match stack with
      | [] => none
      | _ :: rest => unwindTo newLevel cur rest (out ++ endMarker (cur + 1))

/-- One iteration of the `for line in markdown.splitlines()` loop. -/
def listStep (st : LSt) (line : List Char) : Option LSt :=
  match listMatch line with
  | none => some st
  | some (indent, bullet, content) =>
    let newLevel := indent.length / 4
    match unwindTo newLevel st.cur st.stack st.out with
    | none => none
    | some (cur1, stack1, out1) =>
      let st1 : LSt :=
        if decide (cur1 < newLevel) || stack1.isEmpty then
          let ord := decide (2 ≤ bullet.length)
          ⟨out1 ++ startMarker newLevel ord, newLevel, ⟨ord, 1⟩ :: stack1⟩
        else ⟨out1, cur1, stack1⟩
      match st1.stack with
      | [] => some st1
      | top :: rest =>
        if top.ordered then
          some ⟨st1.out ++ ipOrdered top.counter st1.cur ++ content ++ ['\n'],
                st1.cur, ⟨true, top.counter + 1⟩ :: rest⟩
        else
          some ⟨st1.out ++ ipBullet st1.cur ++ content ++ ['\n'],
                st1.cur, top :: rest⟩

/-- The final `while current_level > 0 and list_stack` unwind. -/
def finalUnwind : Nat → List LEnt → List Char → List Char
  | 0, _, out => out
  | cur + 1, stack, out =>
    match stack with
    | [] => out
    | _ :: rest => finalUnwind cur rest (out ++ endMarker (cur + 1))

/-- Translation of `process_lists` (`none` = divergence of the Python loop). -/
def process_lists (m : List Char) : Option (List Char) :=
  let m := process_links (process_formatting (process_special_characters m))
  ((pySplitlines m).foldlM listStep ⟨[], 0, []⟩).map
    (fun st => finalUnwind st.cur st.stack st.out)

/-!  ### `process_tables` -/

/-- Python `line.strip('|')`: strip `|` characters from both ends. -/
def stripPipes (l : List Char) : List Char :=
  ((l.dropWhile (fun c => c = '|')).reverse.dropWhile (fun c => c = '|')).reverse

/-- `"|" + "|".join(strip(c) for c in line.strip('|').split('|')) + "|"`. -/
def tableRowFor (line : List Char) : List Char :=
  '|' :: joinCh '|' ((splitCh '|' (stripPipes line)).map pyStrip) ++ ['|']

/-- Python `s * n` (string repetition). -/
def repeatList : Nat → List Char → List Char
  | 0, _ => []
  | n + 1, s => s ++ repeatList n s

/-- The row loop of `process_tables`: a `_` separator before the first row. -/
def tableRows : Bool → List (List Char) → List (List Char)
  | _, [] => []
  | first, l :: ls =>
    (if first then [['_']] else []) ++ tableRowFor l :: tableRows false ls

/-- Translation of `process_tables`. -/
def process_tables (m : List Char) : List Char :=
  let processed := process_formatting m
  let lines := splitCh '\n' processed
  match lines with
  | [] => []
  | l0 :: _ =>
    if (pyStrip l0).length = 0 then []
    else
      joinNL
        (["\\fBStart of Table\\fR".toList, ".TS".toList, "allbox tab(|);".toList,
          repeatList (splitCh '|' l0).length "l ".toList ++ ['.']] ++
         tableRows true lines ++
         [".TE\n\\fBEnd of Table\\fR".toList])

/-!  ### `process_code` -/

/-- The `for line in markdown.splitlines()` loop of `process_code`, with the
`in_code_block` flag. -/
def processCodeAux : Bool → List (List Char) → List (List Char)
  | _, [] => []
  | inCode, l :: ls =>
    if startsWithL "```".toList (pyLStrip l) then
      (if inCode then "\\fR\n.fi\n".toList else ".nf\n\\fC\n".toList) ::
        processCodeAux (!inCode) ls
    else
      replaceSub "\\fC".toList "\\fC ".toList l :: processCodeAux inCode ls

/-- Translation of `process_code`. -/
def process_code (m : List Char) : List Char :=
  joinNL (processCodeAux false (pySplitlines m))

/-!  ### `convert_markdown_to_man` (the text pipeline, file I/O elided) -/

/-- Dispatch of the `for block in blocks` loop. -/
def renderBlock (b : Block) : Option (List Char) :=
  match b.type with
  | .code => some (process_code b.markdown)
  | .list => process_lists b.markdown
  | .table => some (process_tables b.markdown)
  | .default => some (process_default b.markdown)

/-- The fixed `man_page` preamble. -/
def manPreamble : List (List Char) :=
  [".TH I.ATCORR 1 \"GRASS GIS Manual\"".toList,
   ".SH NAME\ni.atcorr \\- Atmospheric correction using 6S algorithm".toList]

/-- Translation of `convert_markdown_to_man` as input text → output text
(`none` = divergence of a list block's rendering loop). -/
def convert_markdown_to_man (input : List Char) : Option (List Char) :=
  let blocks := parse_markdown (strip_yaml_from_markdown input)
  (blocks.mapM renderBlock).map (fun rs => joinNL (manPreamble ++ rs))

/-!  ### Spec-side reference definition (for the ordering claim) -/

/-- Modelled from the spec: the Inline Formatter's prescribed pipeline
"link/image stripping → emphasis rewriting → special-character escaping"
(§4.3 ordering contract), built from the same three stage functions. -/
def specInlinePipeline (s : List Char) : List Char :=
  process_special_characters (process_formatting (process_links s))

/-!  ## Helper lemmas -/

theorem startsWithL_self (p l : List Char) : startsWithL p (p ++ l) = true := by
  induction p with
  | nil => rfl
  | cons c cs ih => simp [startsWithL, ih]

theorem splitCh_ne_nil (c : Char) (l : List Char) : splitCh c l ≠ [] := by
  cases l with
  | nil => simp [splitCh]
  | cons d rest =>
    simp only [splitCh]
    split
    · simp
    · split <;> simp

theorem splitCh_not_mem {c : Char} {l : List Char} (h : c ∉ l) : splitCh c l = [l] := by
  induction l with
  | nil => rfl
  | cons d rest ih =>
    have hdc : ¬(d = c) := fun e => h (by simp [e])
    have hr : c ∉ rest := fun hm => h (List.mem_cons_of_mem _ hm)
    simp only [splitCh, if_neg hdc, ih hr]

theorem splitCh_append_cons (c : Char) (x y : List Char) :
    splitCh c (x ++ c :: y) = splitCh c x ++ splitCh c y := by
  induction x with
  | nil => simp [splitCh]
  | cons d rest ih =>
    by_cases hdc : d = c
    · simp only [List.cons_append, splitCh, if_pos hdc, List.append_eq, ih]
    · simp only [List.cons_append, splitCh, if_neg hdc, List.append_eq, ih]
      cases hs : splitCh c rest with
      | nil => exact absurd hs (splitCh_ne_nil c rest)
      | cons p ps => simp

theorem mem_of_mem_splitCh {c x : Char} {l p : List Char}
    (hp : p ∈ splitCh c l) (hx : x ∈ p) : x ∈ l := by
  induction l generalizing p with
  | nil =>
    simp [splitCh] at hp
    subst hp
    simp at hx
  | cons d rest ih =>
    simp only [splitCh] at hp
    by_cases hdc : d = c
    · rw [if_pos hdc] at hp
      rcases List.mem_cons.mp hp with h1 | h1
      · subst h1; simp at hx
      · exact List.mem_cons_of_mem _ (ih h1 hx)
    · rw [if_neg hdc] at hp
      cases hs : splitCh c rest with
      | nil => exact absurd hs (splitCh_ne_nil c rest)
      | cons q qs =>
        rw [hs] at hp
        rcases List.mem_cons.mp hp with h1 | h1
        · subst h1
          rcases List.mem_cons.mp hx with h2 | h2
          · subst h2; simp
          · have hq : q ∈ splitCh c rest := by rw [hs]; simp
            exact List.mem_cons_of_mem _ (ih hq h2)
        · have hpr : p ∈ splitCh c rest := by rw [hs]; simp [h1]
          exact List.mem_cons_of_mem _ (ih hpr hx)

theorem not_mem_of_mem_splitCh {c : Char} {l p : List Char}
    (hp : p ∈ splitCh c l) : c ∉ p := by
  induction l generalizing p with
  | nil =>
    simp [splitCh] at hp
    subst hp
    simp
  | cons d rest ih =>
    simp only [splitCh] at hp
    by_cases hdc : d = c
    · rw [if_pos hdc] at hp
      rcases List.mem_cons.mp hp with h1 | h1
      · subst h1; simp
      · exact ih h1
    · rw [if_neg hdc] at hp
      cases hs : splitCh c rest with
      | nil => exact absurd hs (splitCh_ne_nil c rest)
      | cons q qs =>
        rw [hs] at hp
        rcases List.mem_cons.mp hp with h1 | h1
        · subst h1
          intro hc
          rcases List.mem_cons.mp hc with h2 | h2
          · exact hdc h2.symm
          · have hq : q ∈ splitCh c rest := by rw [hs]; simp
            exact ih hq h2
        · have hpr : p ∈ splitCh c rest := by rw [hs]; simp [h1]
          exact ih hpr

theorem mem_joinCh {c x : Char} {L : List (List Char)} (h : x ∈ joinCh c L) :
    x = c ∨ ∃ p ∈ L, x ∈ p := by
  induction L with
  | nil => simp [joinCh] at h
  | cons l ls ih =>
    cases ls with
    | nil => exact Or.inr ⟨l, by simp, by simpa [joinCh] using h⟩
    | cons l2 ls2 =>
      have e : joinCh c (l :: l2 :: ls2) = l ++ c :: joinCh c (l2 :: ls2) := rfl
      rw [e] at h
      rcases List.mem_append.mp h with h1 | h1
      · exact Or.inr ⟨l, by simp, h1⟩
      · rcases List.mem_cons.mp h1 with h2 | h2
        · exact Or.inl h2
        · rcases ih h2 with h3 | ⟨p, hp, hxp⟩
          · exact Or.inl h3
          · exact Or.inr ⟨p, List.mem_cons_of_mem _ hp, hxp⟩

theorem mem_of_dropWhile {q : Char → Bool} {l : List Char} {x : Char}
    (h : x ∈ l.dropWhile q) : x ∈ l := by
  induction l with
  | nil => simp at h
  | cons d rest ih =>
    rw [List.dropWhile_cons] at h
    split at h
    · exact List.mem_cons_of_mem _ (ih h)
    · exact h

theorem mem_of_pyStrip {l : List Char} {x : Char} (h : x ∈ pyStrip l) : x ∈ l := by
  unfold pyStrip at h
  rw [List.mem_reverse] at h
  have h1 := mem_of_dropWhile h
  rw [List.mem_reverse] at h1
  exact mem_of_dropWhile h1

theorem mem_of_stripPipes {l : List Char} {x : Char} (h : x ∈ stripPipes l) : x ∈ l := by
  unfold stripPipes at h
  rw [List.mem_reverse] at h
  have h1 := mem_of_dropWhile h
  rw [List.mem_reverse] at h1
  exact mem_of_dropWhile h1

theorem mem_repeatList {s : List Char} {x : Char} :
    ∀ {n : Nat}, x ∈ repeatList n s → x ∈ s := by
  intro n
  induction n with
  | zero => intro h; simp [repeatList] at h
  | succ k ih =>
    intro h
    rcases List.mem_append.mp (by simpa [repeatList] using h) with h1 | h1
    · exact h1
    · exact ih h1

theorem tableRowFor_no_nl {l : List Char} (h : '\n' ∉ l) : '\n' ∉ tableRowFor l := by
  intro hx
  unfold tableRowFor at hx
  rcases List.mem_cons.mp hx with h1 | h1
  · exact absurd h1 (by decide)
  · rcases List.mem_append.mp h1 with h2 | h2
    · rcases mem_joinCh h2 with h3 | ⟨p, hp, hxp⟩
      · exact absurd h3 (by decide)
      · rcases List.mem_map.mp hp with ⟨q, hq, hpq⟩
        subst hpq
        exact h (mem_of_stripPipes (mem_of_mem_splitCh hq (mem_of_pyStrip hxp)))
    · rcases List.mem_cons.mp h2 with h3 | h3
      · exact absurd h3 (by decide)
      · simp at h3

theorem splitCh_joinCh (c : Char) (L : List (List Char)) (h : L ≠ []) :
    splitCh c (joinCh c L) = (L.map (splitCh c)).flatten := by
  induction L with
  | nil => exact absurd rfl h
  | cons l ls ih =>
    cases ls with
    | nil => simp [joinCh]
    | cons l2 ls2 =>
      have e : joinCh c (l :: l2 :: ls2) = l ++ c :: joinCh c (l2 :: ls2) := rfl
      rw [e, splitCh_append_cons, ih (by simp)]
      simp

theorem flatten_singletons {P : List (List Char)}
    (h : ∀ p ∈ P, splitCh '\n' p = [p]) :
    (P.map (splitCh '\n')).flatten = P := by
  induction P with
  | nil => rfl
  | cons p ps ih =>
    simp only [List.map_cons, List.flatten_cons, h p (by simp)]
    rw [ih (fun q hq => h q (by simp [hq]))]
    rfl

theorem tableRows_false (ls : List (List Char)) :
    tableRows false ls = ls.map tableRowFor := by
  induction ls with
  | nil => rfl
  | cons l ls2 ih => simp [tableRows, ih]

theorem tableRows_true (l : List Char) (ls : List (List Char)) :
    tableRows true (l :: ls) = ['_'] :: tableRowFor l :: ls.map tableRowFor := by
  simp [tableRows, tableRows_false]

theorem replaceSubF_of_no_occ {pat rep : List Char} :
    ∀ (fuel : Nat) (l : List Char), findOcc pat l = none →
      replaceSubF pat rep fuel l = l := by
  intro fuel
  induction fuel with
  | zero => intro l _; rfl
  | succ f ih =>
    intro l h
    cases l with
    | nil => rfl
    | cons c rest =>
      by_cases hs : startsWithL pat (c :: rest) = true
      · rw [findOcc, if_pos hs] at h
        cases h
      · rw [findOcc, if_neg hs] at h
        have hr : findOcc pat rest = none := by
          cases hrr : findOcc pat rest with
          | none => rfl
          | some k => rw [hrr] at h; cases h
        rw [replaceSubF, if_neg, ih rest hr]
        simp [hs]

theorem toUpper_eq_nl {c : Char} (h : Char.toUpper c = '\n') : c = '\n' := by
  simp only [Char.toUpper] at h
  split at h
  · next hc =>
    exfalso
    obtain ⟨h1, h2⟩ := hc
    generalize hg : c.toNat = n at h1 h2 h
    interval_cases n <;> exact absurd h (by decide)
  · exact h

theorem upperStr_no_nl {t : List Char} (h : '\n' ∉ t) : '\n' ∉ upperStr t := by
  intro hx
  rcases List.mem_map.mp hx with ⟨c, hc, hcu⟩
  have hcn : c = '\n' := toUpper_eq_nl hcu
  subst hcn
  exact h hc

/-!  ## Claims -/

/-- Claim C9 (counterexample): empty front matter refutes the claim's strip
arm: `---\n---\nX` begins with a front-matter delimiter and a second
delimiter line follows immediately, yet the code returns the text unchanged
rather than the remainder `X` — the regex's closing `\n---\n` needs a newline
beyond the one ending the opening delimiter, so back-to-back delimiters never
match. -/
theorem C9_empty_front_matter_counterexample :
    strip_yaml_from_markdown "---\n---\nX".toList = "---\n---\nX".toList ∧
    "---\n---\nX".toList ≠ "X".toList := by
  refine ⟨by decide, by decide⟩

/-- Claim C9 (amended): `strip_yaml_from_markdown` removes the region from
the first front-matter delimiter through the closing delimiter — the first
occurrence of `\n---\n` at or after index 4, which requires the front matter
to span at least one line — and returns the remainder; for every other input,
including empty front matter (`---\n---\n…`) and a delimiter that is never
terminated, it returns the text unchanged (treated as no front matter
present, no error raised). -/
theorem C9_front_matter_strip :
    (∀ body rest : List Char,
        findOcc fmClose (body ++ fmClose ++ rest) = some body.length →
        strip_yaml_from_markdown (fmOpen ++ body ++ fmClose ++ rest) = rest) ∧
    (∀ s : List Char, startsWithL fmOpen s = false →
        strip_yaml_from_markdown s = s) ∧
    (∀ s : List Char, findOcc fmClose (s.drop 4) = none →
        strip_yaml_from_markdown s = s) := by
  refine ⟨?_, ?_, ?_⟩
  · intro body rest h
    have hs : startsWithL fmOpen (fmOpen ++ body ++ fmClose ++ rest) = true := by
      have := startsWithL_self fmOpen (body ++ fmClose ++ rest)
      simpa [List.append_assoc] using this
    have hd : (fmOpen ++ body ++ fmClose ++ rest).drop 4 = body ++ fmClose ++ rest := by
      have h4 : fmOpen.length = 4 := by decide
      have := List.drop_left fmOpen (body ++ fmClose ++ rest)
      rw [h4] at this
      simpa [List.append_assoc] using this
    unfold strip_yaml_from_markdown
    rw [hs, if_pos rfl, hd, h]
    have h9 : (fmOpen ++ body ++ fmClose).length = body.length + 9 := by
      simp [fmOpen, fmClose, List.length_append]
    have := List.drop_left (fmOpen ++ body ++ fmClose) rest
    rw [h9] at this
    simpa [List.append_assoc] using this
  · intro s hs
    unfold strip_yaml_from_markdown
    rw [hs]
    simp
  · intro s h
    unfold strip_yaml_from_markdown
    rw [h]
    by_cases hs : startsWithL fmOpen s = true <;> simp [hs]

/-- Witness for C9: the theorem applied at concrete inputs — front matter
`a: b` is removed, a plain document and an unterminated delimiter are
returned unchanged. -/
theorem C9_front_matter_strip_witness :
    strip_yaml_from_markdown "---\na: b\n---\nrest".toList = "rest".toList ∧
    strip_yaml_from_markdown "plain".toList = "plain".toList ∧
    strip_yaml_from_markdown "---\nunterminated".toList = "---\nunterminated".toList := by
  refine ⟨?_, ?_, ?_⟩
  · have e : "---\na: b\n---\nrest".toList =
        fmOpen ++ "a: b".toList ++ fmClose ++ "rest".toList := by decide
    rw [e]
    exact C9_front_matter_strip.1 "a: b".toList "rest".toList (by decide)
  · exact C9_front_matter_strip.2.1 "plain".toList (by decide)
  · exact C9_front_matter_strip.2.2 "---\nunterminated".toList (by decide)

/-- Claim C10 (counterexample): a non-matching plain-text line is skipped by
the list loop, but it still participates in the block-wide inline
preprocessing, so its presence can change the rendered output: the trailing
line `b**` closes the emphasis opened in `- **a`, so the two inputs render
differently — the discarded line does contribute to the output. -/
theorem C10_inert_counterexample :
    listMatch "b**".toList = none ∧
    process_lists "- **a\nb**".toList ≠ process_lists "- **a".toList := by
  constructor
  · decide
  · decide

/-- Claim C10 (amended): inside the list renderer's line loop, any line that
does not match the list-item pattern is silently discarded: removing such a
line from the loop's input leaves the loop's result (output text, level and
stack) unchanged.  (The line may still influence other lines through the
block-wide inline preprocessing that runs before the loop.) -/
theorem C10_nonmatching_line_inert (l : List Char) (hl : listMatch l = none)
    (pre post : List (List Char)) (st : LSt) :
    List.foldlM listStep st (pre ++ l :: post) =
      List.foldlM listStep st (pre ++ post) := by
  induction pre generalizing st with
  | nil =>
    have hstep : listStep st l = some st := by
      unfold listStep
      rw [hl]
    simp only [List.nil_append, List.foldlM_cons, hstep]
    rfl
  | cons a pre ih =>
    simp only [List.cons_append, List.foldlM_cons]
    cases h : listStep st a with
    | none => rfl
    | some s2 => simpa using ih s2

/-- Witness for C10: the theorem applied with the non-matching line
`# heading` between two list items. -/
theorem C10_nonmatching_line_inert_witness :
    listMatch "# heading".toList = none ∧
    List.foldlM listStep (⟨[], 0, []⟩ : LSt)
        (["- a".toList] ++ "# heading".toList :: ["- b".toList]) =
      List.foldlM listStep (⟨[], 0, []⟩ : LSt) (["- a".toList] ++ ["- b".toList]) :=
  ⟨by decide,
   C10_nonmatching_line_inert "# heading".toList (by decide)
     ["- a".toList] ["- b".toList] ⟨[], 0, []⟩⟩

/-- Claim C1 (counterexample): the table renderer does not skip rows of the
wrong arity and does not derive the column count from the header's cell
count: for header `|A|B|` (2 cells) the column spec has 4 entries
(`len("|A|B|".split("|"))`), and the 3-cell row `|1|2|3|` is emitted
verbatim as a data line rather than being dropped. -/
theorem C1_skip_counterexample :
    process_tables "|A|B|\n|1|2|3|".toList =
      ("\\fBStart of Table\\fR\n.TS\nallbox tab(|);\nl l l l .\n_\n" ++
       "|A|B|\n|1|2|3|\n.TE\n\\fBEnd of Table\\fR").toList := by
  decide

/-- Claim C1 (amended): for every table block (inline formatting a no-op on
it, header line non-blank), the table renderer emits a region whose column
spec has one entry per pipe-separated field of the raw header line (n + 2 for
a well-formed `|…|` header with n cells) and whose data lines are exactly one
row per input line, in order, regardless of cell counts: no row is skipped,
none is padded, and rendering does not abort. -/
theorem C1_rows_pass_through (m l0 : List Char) (rest : List (List Char))
    (hsplit : splitCh '\n' m = l0 :: rest)
    (hf : process_formatting m = m)
    (h0 : (pyStrip l0).length ≠ 0) :
    splitCh '\n' (process_tables m) =
      ["\\fBStart of Table\\fR".toList, ".TS".toList, "allbox tab(|);".toList,
       repeatList (splitCh '|' l0).length "l ".toList ++ ['.'], ['_']] ++
      (l0 :: rest).map tableRowFor ++
      [".TE".toList, "\\fBEnd of Table\\fR".toList] := by
  have hnl : ∀ p ∈ l0 :: rest, '\n' ∉ p := fun p hp =>
    not_mem_of_mem_splitCh (l := m) (hsplit ▸ hp)
  simp only [process_tables]
  rw [hf, hsplit]
  show splitCh '\n'
      (if (pyStrip l0).length = 0 then ([] : List Char)
       else joinNL
         (["\\fBStart of Table\\fR".toList, ".TS".toList, "allbox tab(|);".toList,
           repeatList (splitCh '|' l0).length "l ".toList ++ ['.']] ++
          tableRows true (l0 :: rest) ++
          [".TE\n\\fBEnd of Table\\fR".toList])) = _
  rw [if_neg h0, joinNL, tableRows_true,
      splitCh_joinCh '\n' _ (by simp)]
  have hcs : splitCh '\n'
      (repeatList (splitCh '|' l0).length "l ".toList ++ ['.']) =
      [repeatList (splitCh '|' l0).length "l ".toList ++ ['.']] := by
    apply splitCh_not_mem
    intro hx
    rcases List.mem_append.mp hx with h1 | h1
    · exact absurd (mem_repeatList h1) (by decide)
    · rcases List.mem_cons.mp h1 with h2 | h2
      · exact absurd h2 (by decide)
      · simp at h2
  have hrow : ∀ p ∈ l0 :: rest, splitCh '\n' (tableRowFor p) = [tableRowFor p] :=
    fun p hp => splitCh_not_mem (tableRowFor_no_nl (hnl p hp))
  have hrows : ((rest.map tableRowFor).map (splitCh '\n')).flatten =
      rest.map tableRowFor := by
    apply flatten_singletons
    intro q hq
    rcases List.mem_map.mp hq with ⟨p, hp, hpq⟩
    subst hpq
    exact hrow p (List.mem_cons_of_mem _ hp)
  simp only [List.map_append, List.map_cons, List.map_nil, List.flatten_append,
    List.flatten_cons, List.flatten_nil, hcs, hrows,
    hrow l0 (by simp),
    show splitCh '\n' "\\fBStart of Table\\fR".toList =
      ["\\fBStart of Table\\fR".toList] from by decide,
    show splitCh '\n' ".TS".toList = [".TS".toList] from by decide,
    show splitCh '\n' "allbox tab(|);".toList = ["allbox tab(|);".toList] from by decide,
    show splitCh '\n' ['_'] = [['_']] from by decide,
    show splitCh '\n' ".TE\n\\fBEnd of Table\\fR".toList =
      [".TE".toList, "\\fBEnd of Table\\fR".toList] from by decide]
  simp

/-- Witness for C1: the amended theorem applied to the concrete table block
`|A|B|` / `|1|2|` / `|1|2|3|` — the header's column spec has 4 entries and
both data rows appear, the wrong-arity one included. -/
theorem C1_rows_pass_through_witness :
    splitCh '\n' "|A|B|\n|1|2|\n|1|2|3|".toList =
      "|A|B|".toList :: ["|1|2|".toList, "|1|2|3|".toList] ∧
    splitCh '\n' (process_tables "|A|B|\n|1|2|\n|1|2|3|".toList) =
      ["\\fBStart of Table\\fR".toList, ".TS".toList, "allbox tab(|);".toList,
       repeatList (splitCh '|' "|A|B|".toList).length "l ".toList ++ ['.'], ['_']] ++
      ("|A|B|".toList :: ["|1|2|".toList, "|1|2|3|".toList]).map tableRowFor ++
      [".TE".toList, "\\fBEnd of Table\\fR".toList] :=
  ⟨by decide,
   C1_rows_pass_through "|A|B|\n|1|2|\n|1|2|3|".toList "|A|B|".toList
     ["|1|2|".toList, "|1|2|3|".toList] (by decide) (by decide) (by decide)⟩

/-- Claim C2 (counterexample): the rendered text of the line `**a**` differs
from the spec's pipeline order `escape(emphasis(linkstrip(line)))`: the code
escapes first, so `process_default` yields `\fB a \fR`, while the spec's
order corrupts the emphasis markers into `\(rsfB a \(rsfR`. -/
theorem C2_order_counterexample :
    process_default "**a**".toList ≠ specInlinePipeline "**a**".toList := by
  decide

/-- Claim C2 (amended): the default pipeline applies its stages in the fixed
source order parameters → flags → nbsp-removal → special-character escaping →
emphasis rewriting → link/image stripping → headings; in particular the three
inline stages run as escape first, emphasis second, link stripping last —
the reverse of the spec's ordering contract. -/
theorem C2_actual_order (m : List Char) :
    process_default m =
      process_headings (process_links (process_formatting
        (process_special_characters (replaceSub nbspQuad []
          (process_flags (process_parameters m)))))) := by
  simp only [process_default, transformations, List.foldl]

/-- Claim C3 (counterexample): a level-1 heading is not transformed at all:
`process_default "# Title"` returns `# Title` unchanged — no section macro is
emitted and the title is not uppercased. -/
theorem C3_level1_counterexample :
    process_default "# Title".toList = "# Title".toList := by
  decide

/-- Claim C3 (amended): the heading renderer rewrites `##` lines (on any
line of the block) and a `### ` prefix only at the very start of the block
string: for every newline-free title `t`, a single `## t` heading becomes the
numbered top-level section macro `.SH 1. T (Main Section)` with the title
uppercased; a block matching neither marker (in particular any `# Title`
level-1 heading) passes through unchanged; `### y` at the start of the block
becomes the subsection macro `.SS 0.1 Y (Subsection)`, while a `###` line
elsewhere in the block is left untouched (the second substitution is not
MULTILINE). -/
theorem C3_heading_mapping :
    (∀ t : List Char, '\n' ∉ t →
        process_headings ("## ".toList ++ t) =
          "\n.SH 1. ".toList ++ upperStr t ++ " (Main Section)\n".toList) ∧
    (∀ t : List Char, '\n' ∉ t → startsWithL "## ".toList t = false →
        startsWithL "### ".toList t = false →
        process_headings t = t) ∧
    process_headings "### Sub".toList = "\n.SS 0.1 SUB (Subsection)\n".toList ∧
    process_headings "x  \n### y".toList = "x  \n### y".toList := by
  refine ⟨?_, ?_, by decide, by decide⟩
  · intro t ht
    have hsplit1 : splitCh '\n' ("## ".toList ++ t) = ["## ".toList ++ t] := by
      apply splitCh_not_mem
      intro hx
      rcases List.mem_append.mp hx with h1 | h1
      · exact absurd h1 (by decide)
      · exact ht h1
    show headingsPass2 (headingsPass1 0 (splitCh '\n' ("## ".toList ++ t))).1
        (joinNL (headingsPass1 0 (splitCh '\n' ("## ".toList ++ t))).2) = _
    rw [hsplit1]
    rfl
  · intro t ht h2 h3
    have hsplit1 : splitCh '\n' t = [t] := splitCh_not_mem ht
    have h2a : startsWithL ['#', '#', ' '] t = false := h2
    have h3a : startsWithL ['#', '#', '#', ' '] t = false := h3
    have hp1 : headingsPass1 0 [t] = (0, [t]) := by
      simp [headingsPass1, shLine, h2, h2a]
    show headingsPass2 (headingsPass1 0 (splitCh '\n' t)).1
        (joinNL (headingsPass1 0 (splitCh '\n' t)).2) = t
    rw [hsplit1, hp1]
    show headingsPass2 0 t = t
    simp [headingsPass2, h3, h3a]

/-- Witness for C3: the amended theorem applied at the titles `Title` (a `##`
heading) and `plain text` (no heading marker). -/
theorem C3_heading_mapping_witness :
    process_headings "## Title".toList = "\n.SH 1. TITLE (Main Section)\n".toList ∧
    process_headings "plain text".toList = "plain text".toList := by
  constructor
  · have h := C3_heading_mapping.1 "Title".toList (by decide)
    rw [show "## Title".toList = "## ".toList ++ "Title".toList from by decide, h]
    decide
  · exact C3_heading_mapping.2.1 "plain text".toList (by decide) (by decide) (by decide)

set_option maxRecDepth 20000 in
set_option maxHeartbeats 1600000 in
/-- Claim C4: on the two-level nested unordered list `- a` / `    - b` the
renderer emits two begin markers but only one end marker: the final unwind
loop stops at level 0, so the outermost `.RS` region is never closed,
contradicting the claimed begin/end balance. -/
theorem C4_unbalanced_markers :
    (process_lists "- a\n    - b".toList).map
        (fun o => (countOcc "Start of Nested List".toList o,
                   countOcc "End of Nested List".toList o)) =
      some (2, 1) := by
  decide

/-- Claim C5 (counterexample): code-block content is not backslash-escaped:
the line `a\b **text**` is emitted verbatim — the single backslash survives
unescaped (no `\(rs`, no doubling), though indeed no emphasis or link
rewriting happens. -/
theorem C5_backslash_counterexample :
    process_code "```\na\\b **text**\n```".toList =
      ".nf\n\\fC\n\na\\b **text**\n\\fR\n.fi\n".toList ∧
    countOcc "\\(rs".toList (process_code "```\na\\b **text**\n```".toList) = 0 ∧
    countOcc "\\\\".toList (process_code "```\na\\b **text**\n```".toList) = 0 := by
  refine ⟨by decide, by decide, by decide⟩

/-- Claim C5 (amended): the code renderer's line loop passes every content
line (non-fence, free of the sequence `\fC`) through completely unmodified —
backslashes, emphasis markers and links included; the only transformation the
renderer ever applies to a line is giving each occurrence of the monospace
font sequence `\fC` a trailing space. -/
theorem C5_code_passthrough :
    (∀ ls : List (List Char),
        (∀ l ∈ ls, startsWithL "```".toList (pyLStrip l) = false ∧
                   findOcc "\\fC".toList l = none) →
        processCodeAux true ls = ls) ∧
    process_code "```\na\\fCb\n```".toList =
      ".nf\n\\fC\n\na\\fC b\n\\fR\n.fi\n".toList := by
  refine ⟨?_, by decide⟩
  intro ls
  induction ls with
  | nil => intro _; rfl
  | cons l ls2 ih =>
    intro h
    obtain ⟨h1, h2⟩ := h l (by simp)
    have hrep : replaceSub "\\fC".toList "\\fC ".toList l = l :=
      replaceSubF_of_no_occ (l.length + 1) l h2
    simp only [processCodeAux, h1, Bool.false_eq_true, if_false, hrep]
    rw [ih (fun q hq => h q (List.mem_cons_of_mem _ hq))]

/-- Witness for C5: the amended theorem applied to the two content lines
`a\b **text**` and `[x](y) *i*` — both emitted verbatim. -/
theorem C5_code_passthrough_witness :
    processCodeAux true ["a\\b **text**".toList, "[x](y) *i*".toList] =
      ["a\\b **text**".toList, "[x](y) *i*".toList] :=
  C5_code_passthrough.1 ["a\\b **text**".toList, "[x](y) *i*".toList] (by decide)

/-- Claim C6: an input ending inside an open code fence still yields exactly
one code block (its two lines soft-wrap-joined into one), but the rendered
code region is not properly closed: the output opens with `.nf`/`\fC` and
contains no closing `.fi`. -/
theorem C6_region_left_open :
    parse_markdown "```\ncode1\ncode2".toList =
      [⟨"```\ncode1 code2".toList, PState.code⟩] ∧
    process_code "```\ncode1 code2".toList = ".nf\n\\fC\n\ncode1 code2".toList ∧
    countOcc ".fi".toList (process_code "```\ncode1 code2".toList) = 0 := by
  refine ⟨by decide, by decide, by decide⟩

/-- Claim C7 (counterexample): a line containing a pipe character does not
necessarily open a table: `a | b` contains a pipe but does not match
`^\|.+\|$`, so the classifier leaves it in the default text block. -/
theorem C7_pipe_counterexample :
    parse_markdown "a | b".toList = [⟨"a | b".toList, PState.default⟩] := by
  decide

/-- Claim C7 (amended): a line whose stripped form starts and ends with `|`
(with at least one character between) opens a table; the table stays open
while lines match that shape or start with `|-`; the first non-matching line
closes the table but is moved into the soft-wrap buffer of the following
default block — it is not reprocessed by the fence rule (a ```` ``` ````
line after a table becomes text, not a code fence). -/
theorem C7_table_detection :
    parse_markdown "|a|\n|-|\n|b|\nx".toList =
      [⟨"|a|\n|-|\n|b|".toList, PState.table⟩, ⟨"x".toList, PState.default⟩] ∧
    parse_markdown "|a|b|\n```x".toList =
      [⟨"|a|b|".toList, PState.table⟩, ⟨"```x".toList, PState.default⟩] := by
  refine ⟨by decide, by decide⟩

/-- Claim C8 (counterexample): there is no Authors handling in the
classifier: an `## Authors` heading line neither closes the open text block
nor opens an Authors block — it is soft-wrap-joined into the same default
block together with the preceding text and the author line. -/
theorem C8_authors_counterexample :
    parse_markdown "Some text\n## Authors\nAnna".toList =
      [⟨"Some text ## Authors Anna".toList, PState.default⟩] := by
  decide

set_option maxRecDepth 20000 in
set_option maxHeartbeats 1600000 in
/-- Claim C8 (amended): an Authors section is rendered through the default
pipeline only: the converter dispatches on code/list/table/default, the
`## Authors` heading and the author name are soft-wrap-joined into one line,
and the result is a single uppercased `.SH` heading — no italic role labels,
no title/author pairing. -/
theorem C8_authors_default_path :
    convert_markdown_to_man "## Authors\nAnna Petrasova".toList =
      some (".TH I.ATCORR 1 \"GRASS GIS Manual\"\n.SH NAME\ni.atcorr \\- " ++
            "Atmospheric correction using 6S algorithm\n\n.SH 1. AUTHORS " ++
            "ANNA PETRASOVA (Main Section)\n").toList := by
  decide

end Md2Man
